import Mathlib

/-!
Verification of the signal-decomposition library `lib/transportdata.py`
(CenterSymmetry, ShiftSymmetry, UpDownSymmetry, Deinterleave).

Signals are modelled as `List ℚ` (exact rational arithmetic in place of
floating point).  The Python source runs under Python 2 semantics, so
`len(y)/2` is integer floor division; this is modelled with `Nat`
division.  Fallible functions return `Except String`, carrying the
message of the exception the Python code raises.  NumPy element-wise
addition and subtraction of two one-dimensional arrays follows the
broadcasting rule: equal lengths pair positionally, a length-one
operand is broadcast against the other, and any other length mismatch
raises a ValueError; this rule is modelled by `broadcastOp`.
-/

namespace TransportData

/-- Message of the exception raised by the center-symmetrizers when the
input length is even (the parity check of `symmetrizeSignalZero` and
`antiSymmetrizeSignalZero`). -/
def unevenMsg : String :=
  "Data needs to have an uneven number of elements if no center index (idx) is provided"

/-- Message of the exception raised by the shift-symmetrizers when the
input length is odd. -/
def evenMsg : String :=
  "Data needs to have an even number of elements"

/-- Message standing for the NumPy ValueError raised when two arrays of
incompatible lengths are combined element-wise. -/
def broadcastMsg : String :=
  "operands could not be broadcast together"

/-- Message standing for the IndexError raised on out-of-range array
indexing. -/
def indexMsg : String :=
  "index out of range"

/-- Python slice `y[a:b]` for non-negative bounds: the elements at
positions `a, a+1, ..., b-1`, clamped to the array. -/
def pySlice (y : List ℚ) (a b : ℕ) : List ℚ :=
  (y.take b).drop a

/-- NumPy 1-D broadcasting of a binary element-wise operation: equal
lengths combine positionally; a length-one array is broadcast against
the other operand; any other mismatch is a broadcast error (`none`). -/
def broadcastOp (f : ℚ → ℚ → ℚ) (a b : List ℚ) : Option (List ℚ) :=
  if a.length = b.length then some (List.zipWith f a b)
  else if a.length = 1 then some (b.map (fun y => f (a.headD 0) y))
  else if b.length = 1 then some (a.map (fun x => f x (b.headD 0)))
  else none

/-- Pivot and span end computed by `symmetrizeSignalZero` and
`antiSymmetrizeSignalZero` from the optional center index.  The Python
source tests `if not idx:`, which is true both for `None` and for `0`,
so an explicit index `0` takes the implicit branch `(n/2, n)`; a
non-zero explicit index `i` gives `(i, min n (i*2))`. -/
def centerBounds (n : ℕ) (idx? : Option ℕ) : ℕ × ℕ :=
  match idx? with
  | none => (n / 2, n)
  | some i => if i = 0 then (n / 2, n) else (i, min n (i * 2))

/-- Model of `symmetrizeSignalZero(y, idx=None)`: after the parity
check (which the source performs unconditionally), computes
`(y[0:idx] + y[idx+1:idx_end][::-1]) / 2` with NumPy broadcasting. -/
def symmetrizeSignalZero (y : List ℚ) (idx? : Option ℕ) : Except String (List ℚ) :=
  if y.length % 2 = 0 then Except.error unevenMsg
  else
    let b := centerBounds y.length idx?
    match broadcastOp (fun u v => u + v) (pySlice y 0 b.1) ((pySlice y (b.1 + 1) b.2).reverse) with
    | some s => Except.ok (s.map (fun v => v / 2))
    | none => Except.error broadcastMsg

/-- Model of `antiSymmetrizeSignalZero(y, idx=None)`: identical to
`symmetrizeSignalZero` with the element-wise difference in place of the
sum. -/
def antiSymmetrizeSignalZero (y : List ℚ) (idx? : Option ℕ) : Except String (List ℚ) :=
  if y.length % 2 = 0 then Except.error unevenMsg
  else
    let b := centerBounds y.length idx?
    match broadcastOp (fun u v => u - v) (pySlice y 0 b.1) ((pySlice y (b.1 + 1) b.2).reverse) with
    | some s => Except.ok (s.map (fun v => v / 2))
    | none => Except.error broadcastMsg

/-- Model of the fill loop `for idx in range(0, len(y)/2): s[idx] =
(y[idx] op y[idx+symmetryStep])/2` of the shift-symmetrizers,
producing the entries for indices `i, i+1, ..., i+m-1` and raising the
IndexError of the first out-of-range access. -/
def shiftBuild (f : ℚ → ℚ → ℚ) (y : List ℚ) (step : ℕ) : ℕ → ℕ → Except String (List ℚ)
  | _, 0 => Except.ok []
  | i, m + 1 =>
    match y.get? i, y.get? (i + step) with
    | some a, some b =>
      match shiftBuild f y step (i + 1) m with
      | Except.ok rest => Except.ok (f a b / 2 :: rest)
      | Except.error e => Except.error e
    | _, _ => Except.error indexMsg

/-- Model of `symmetrizeSignal(y, symmetryStep)`: rejects odd-length
input, then fills an array of length `len(y)/2` with
`(y[idx] + y[idx+symmetryStep])/2`. -/
def symmetrizeSignal (y : List ℚ) (step : ℕ) : Except String (List ℚ) :=
  if y.length % 2 = 1 then Except.error evenMsg
  else shiftBuild (fun u v => u + v) y step 0 (y.length / 2)

/-- Model of `antiSymmetrizeSignal(y, symmetryStep)`: rejects
odd-length input, then fills an array of length `len(y)/2` with
`(y[idx] - y[idx+symmetryStep])/2`. -/
def antiSymmetrizeSignal (y : List ℚ) (step : ℕ) : Except String (List ℚ) :=
  if y.length % 2 = 1 then Except.error evenMsg
  else shiftBuild (fun u v => u - v) y step 0 (y.length / 2)

/-- Model of `symmetrizeSignalUpDown(y, symmetryStep)`: reassembles
`yL = hstack(y[0:N/4], y[2N/4:3N/4])` and
`yU = hstack(y[N/4:2N/4], y[3N/4:])`, applies `symmetrizeSignal` to
each with the same step, and concatenates the results (the first
exception propagates). -/
def symmetrizeSignalUpDown (y : List ℚ) (step : ℕ) : Except String (List ℚ) :=
  let n := y.length
  let yL := pySlice y 0 (n / 4) ++ pySlice y (2 * n / 4) (3 * n / 4)
  let yU := pySlice y (n / 4) (2 * n / 4) ++ y.drop (3 * n / 4)
  match symmetrizeSignal yL step with
  | Except.error e => Except.error e
  | Except.ok a =>
    match symmetrizeSignal yU step with
    | Except.error e => Except.error e
    | Except.ok b => Except.ok (a ++ b)

/-- Model of `antiSymmetrizeSignalUpDown(y, symmetryStep)`: same
quadrant reassembly as `symmetrizeSignalUpDown` followed by
`antiSymmetrizeSignal` on each half. -/
def antiSymmetrizeSignalUpDown (y : List ℚ) (step : ℕ) : Except String (List ℚ) :=
  let n := y.length
  let yL := pySlice y 0 (n / 4) ++ pySlice y (2 * n / 4) (3 * n / 4)
  let yU := pySlice y (n / 4) (2 * n / 4) ++ y.drop (3 * n / 4)
  match antiSymmetrizeSignal yL step with
  | Except.error e => Except.error e
  | Except.ok a =>
    match antiSymmetrizeSignal yU step with
    | Except.error e => Except.error e
    | Except.ok b => Except.ok (a ++ b)

/-- Python extended slice `x[0::2]`: every second element starting at
index 0. -/
def strideTwo : List ℚ → List ℚ
  | [] => []
  | [a] => [a]
  | a :: _ :: rest => a :: strideTwo rest

/-- Model of `separateAlternatingSignal(x)`: the pair
`(x[0::2], x[1::2])`. -/
def separateAlternatingSignal (x : List ℚ) : List ℚ × List ℚ :=
  (strideTwo x, strideTwo (x.drop 1))

/-- Re-interleaving by alternation, taking one element from each list
in turn starting with the first: the inverse operation the spec pairs
with `separateAlternatingSignal`. -/
def interleave : List ℚ → List ℚ → List ℚ
  | [], ys => ys
  | a :: as, ys => a :: interleave ys as
termination_by xs ys => xs.length + ys.length

end TransportData

namespace TransportData

lemma zipWith_get?_of_lt (f : ℚ → ℚ → ℚ) :
    ∀ (a b : List ℚ) (n : ℕ), n < a.length → n < b.length →
      (List.zipWith f a b).get? n = some (f (a.getD n 0) (b.getD n 0)) := by
  intro a
  induction a with
  | nil => intro b n h1 _; simp at h1
  | cons x xs ih =>
    intro b n h1 h2
    cases b with
    | nil => simp at h2
    | cons z zs =>
      cases n with
      | zero => rfl
      | succ m =>
        simp only [List.zipWith, List.get?]
        exact ih zs m (by simpa using h1) (by simpa using h2)

lemma getD_take_of_lt (y : List ℚ) (k n : ℕ) (h : n < k) :
    (y.take k).getD n 0 = y.getD n 0 := by
  calc (y.take k).getD n 0 = ((y.take k).get? n).getD 0 := rfl
    _ = (y.get? n).getD 0 := by rw [List.get?_take h]
    _ = y.getD n 0 := rfl

lemma getD_reverse_drop (y : List ℚ) (k n : ℕ) (hlen : y.length = 2 * k + 1) (h : n < k) :
    ((y.drop (k + 1)).reverse).getD n 0 = y.getD (y.length - 1 - n) 0 := by
  have hd : (y.drop (k + 1)).length = k := by rw [List.length_drop, hlen]; omega
  have hn : n < (y.drop (k + 1)).length := by rw [hd]; omega
  have h1 : ((y.drop (k + 1)).reverse).get? n
      = (y.drop (k + 1)).get? ((y.drop (k + 1)).length - 1 - n) := List.get?_reverse hn
  have h2 : (y.drop (k + 1)).get? (k - 1 - n) = y.get? (k + 1 + (k - 1 - n)) :=
    List.get?_drop y (k + 1) (k - 1 - n)
  have h3 : k + 1 + (k - 1 - n) = y.length - 1 - n := by omega
  calc ((y.drop (k + 1)).reverse).getD n 0 = (((y.drop (k + 1)).reverse).get? n).getD 0 := rfl
    _ = ((y.drop (k + 1)).get? (k - 1 - n)).getD 0 := by rw [h1, hd]
    _ = (y.get? (y.length - 1 - n)).getD 0 := by rw [h2, h3]
    _ = y.getD (y.length - 1 - n) 0 := rfl

lemma broadcastOp_eq_zipWith (f : ℚ → ℚ → ℚ) (a b : List ℚ) (h : a.length = b.length) :
    broadcastOp f a b = some (List.zipWith f a b) := by
  unfold broadcastOp; rw [if_pos h]

lemma take_length_center (y : List ℚ) (k : ℕ) (hlen : y.length = 2 * k + 1) :
    (y.take k).length = k := by
  rw [List.length_take]; omega

lemma reverse_drop_length_center (y : List ℚ) (k : ℕ) (hlen : y.length = 2 * k + 1) :
    ((y.drop (k + 1)).reverse).length = k := by
  rw [List.length_reverse, List.length_drop]; omega

lemma symZero_none_eq (y : List ℚ) (k : ℕ) (hlen : y.length = 2 * k + 1) :
    symmetrizeSignalZero y none
      = Except.ok ((List.zipWith (fun u v => u + v) (y.take k)
          ((y.drop (k + 1)).reverse)).map (fun v => v / 2)) := by
  have hodd : ¬ (y.length % 2 = 0) := by omega
  have hk : y.length / 2 = k := by omega
  unfold symmetrizeSignalZero
  rw [if_neg hodd]
  simp only [centerBounds, hk]
  have hs0 : pySlice y 0 k = y.take k := by simp [pySlice]
  have hs1 : pySlice y (k + 1) y.length = y.drop (k + 1) := by
    simp [pySlice, List.take_length]
  have hEq : (y.take k).length = ((y.drop (k + 1)).reverse).length := by
    rw [take_length_center y k hlen, reverse_drop_length_center y k hlen]
  rw [hs0, hs1, broadcastOp_eq_zipWith _ _ _ hEq]

lemma antiSymZero_none_eq (y : List ℚ) (k : ℕ) (hlen : y.length = 2 * k + 1) :
    antiSymmetrizeSignalZero y none
      = Except.ok ((List.zipWith (fun u v => u - v) (y.take k)
          ((y.drop (k + 1)).reverse)).map (fun v => v / 2)) := by
  have hodd : ¬ (y.length % 2 = 0) := by omega
  have hk : y.length / 2 = k := by omega
  unfold antiSymmetrizeSignalZero
  rw [if_neg hodd]
  simp only [centerBounds, hk]
  have hs0 : pySlice y 0 k = y.take k := by simp [pySlice]
  have hs1 : pySlice y (k + 1) y.length = y.drop (k + 1) := by
    simp [pySlice, List.take_length]
  have hEq : (y.take k).length = ((y.drop (k + 1)).reverse).length := by
    rw [take_length_center y k hlen, reverse_drop_length_center y k hlen]
  rw [hs0, hs1, broadcastOp_eq_zipWith _ _ _ hEq]

/-- C1: evaluation of the code at the failing input.  An explicit pivot
of `0` is NOT honored: for `y = [1,2,3]` and `idx = 0`, the falsy test
`if not idx:` sends the call down the implicit-pivot path (pivot
`len(y)/2 = 1`, span end `3`), so `symmetrizeSignalZero` returns the
one-element result `[(1+3)/2] = [2]` and `antiSymmetrizeSignalZero`
returns `[(1-3)/2] = [-1]`, instead of the empty sequence of length 0
the claim requires. -/
theorem c1_pivot_zero_falls_back_to_implicit :
    symmetrizeSignalZero [1, 2, 3] (some 0) = Except.ok [2]
      ∧ antiSymmetrizeSignalZero [1, 2, 3] (some 0) = Except.ok [-1] := by
  constructor <;>
    · simp [symmetrizeSignalZero, antiSymmetrizeSignalZero, centerBounds, pySlice, broadcastOp]
      norm_num

/-- C2: evaluation of the code at the failing input.  The parity check
runs before the pivot is examined, so an even-length input is rejected
even when an explicit pivot is supplied: for `y = [1,2,3,4]` and
`idx = 1` both center-symmetrizers raise the odd-length exception,
although the claim (and the message of the exception itself) restricts
the parity requirement to the case of no explicit pivot. -/
theorem c2_parity_check_fires_despite_explicit_pivot :
    symmetrizeSignalZero [1, 2, 3, 4] (some 1) = Except.error unevenMsg
      ∧ antiSymmetrizeSignalZero [1, 2, 3, 4] (some 1) = Except.error unevenMsg := by
  constructor <;> rfl

/-- C3: evaluation of the code at failing inputs.  For an explicit
pivot `idx >= 1` the mirror slice `y[idx+1:min(N,2*idx)]` is one
element shorter than `y[0:idx]`, so the result never has the claimed
length `idx`: at `y = [1,2,3,4,5]`, `idx = 1` broadcasting a
length-one slice against an empty one yields the empty sequence
(length 0, not 1), and at `y = [1,2,3,4,5,6,7]`, `idx = 3` the slices
have lengths 3 and 2 and NumPy raises a broadcast ValueError. -/
theorem c3_explicit_pivot_result_length_wrong :
    symmetrizeSignalZero [1, 2, 3, 4, 5] (some 1) = Except.ok []
      ∧ antiSymmetrizeSignalZero [1, 2, 3, 4, 5] (some 1) = Except.ok []
      ∧ symmetrizeSignalZero [1, 2, 3, 4, 5, 6, 7] (some 3) = Except.error broadcastMsg
      ∧ antiSymmetrizeSignalZero [1, 2, 3, 4, 5, 6, 7] (some 3) = Except.error broadcastMsg := by
  refine ⟨?_, ?_, ?_, ?_⟩ <;> rfl

/-- C4: for every odd-length signal `y` of length `N` with no explicit
pivot, `symmetrizeSignalZero` returns a sequence of length `N/2` whose
entry `n` is `(y[n] + y[N-1-n])/2`, and `antiSymmetrizeSignalZero`
returns a sequence of the same length whose entry `n` is
`(y[n] - y[N-1-n])/2`. -/
theorem c4_implicit_center_formula (y : List ℚ) (h : y.length % 2 = 1) :
    ∃ s t, symmetrizeSignalZero y none = Except.ok s
      ∧ antiSymmetrizeSignalZero y none = Except.ok t
      ∧ s.length = y.length / 2
      ∧ t.length = y.length / 2
      ∧ ∀ n, n < y.length / 2 →
          s.get? n = some ((y.getD n 0 + y.getD (y.length - 1 - n) 0) / 2)
          ∧ t.get? n = some ((y.getD n 0 - y.getD (y.length - 1 - n) 0) / 2) := by
  obtain ⟨k, hlen⟩ : ∃ k, y.length = 2 * k + 1 := ⟨y.length / 2, by omega⟩
  have hk : y.length / 2 = k := by omega
  have hta : (y.take k).length = k := take_length_center y k hlen
  have htb : ((y.drop (k + 1)).reverse).length = k := reverse_drop_length_center y k hlen
  refine ⟨_, _, symZero_none_eq y k hlen, antiSymZero_none_eq y k hlen, ?_, ?_, ?_⟩
  · rw [List.length_map, List.length_zipWith, hta, htb, hk, Nat.min_self]
  · rw [List.length_map, List.length_zipWith, hta, htb, hk, Nat.min_self]
  · intro n hn
    rw [hk] at hn
    have h1 : n < (y.take k).length := by rw [hta]; exact hn
    have h2 : n < ((y.drop (k + 1)).reverse).length := by rw [htb]; exact hn
    constructor
    · rw [List.get?_map, zipWith_get?_of_lt _ _ _ _ h1 h2, getD_take_of_lt y k n hn,
        getD_reverse_drop y k n hlen hn]
      rfl
    · rw [List.get?_map, zipWith_get?_of_lt _ _ _ _ h1 h2, getD_take_of_lt y k n hn,
        getD_reverse_drop y k n hlen hn]
      rfl

/-- Witness for C4 at the concrete input `y = [1,2,3]`. -/
theorem c4_implicit_center_formula_witness :
    (([(1 : ℚ), 2, 3] : List ℚ).length % 2 = 1)
      ∧ (∃ s t, symmetrizeSignalZero [1, 2, 3] none = Except.ok s
          ∧ antiSymmetrizeSignalZero [1, 2, 3] none = Except.ok t
          ∧ s.length = ([(1 : ℚ), 2, 3] : List ℚ).length / 2
          ∧ t.length = ([(1 : ℚ), 2, 3] : List ℚ).length / 2
          ∧ ∀ n, n < ([(1 : ℚ), 2, 3] : List ℚ).length / 2 →
              s.get? n = some ((([(1 : ℚ), 2, 3] : List ℚ).getD n 0
                  + ([(1 : ℚ), 2, 3] : List ℚ).getD (([(1 : ℚ), 2, 3] : List ℚ).length - 1 - n) 0) / 2)
              ∧ t.get? n = some ((([(1 : ℚ), 2, 3] : List ℚ).getD n 0
                  - ([(1 : ℚ), 2, 3] : List ℚ).getD (([(1 : ℚ), 2, 3] : List ℚ).length - 1 - n) 0) / 2)) :=
  ⟨by decide, c4_implicit_center_formula [1, 2, 3] (by decide)⟩

/-- C5 counterexample: on `y = [1,2,3,4,5]` with no explicit pivot the
code does not return `[2.5, 3.5]` (the claimed value pairs the left
half with the UNREVERSED right slice); it returns `[3, 3]`. -/
theorem c5_counterexample :
    symmetrizeSignalZero [1, 2, 3, 4, 5] none ≠ Except.ok [5 / 2, 7 / 2] := by
  have hval : symmetrizeSignalZero [1, 2, 3, 4, 5] none = Except.ok [3, 3] := by
    simp [symmetrizeSignalZero, centerBounds, pySlice, broadcastOp]
    norm_num
  rw [hval]
  intro hcontra
  have hl : ([3, 3] : List ℚ) = [5 / 2, 7 / 2] := by injection hcontra
  have h3 : (3 : ℚ) = 5 / 2 := by
    have := congrArg (fun l => l.headD 0) hl
    simpa using this
  norm_num at h3

/-- C5 amended: for `y = [1,2,3,4,5]` with no explicit pivot the pivot
is `2` and the span end is `5`; the code compares `y[0:2] = [1,2]`
with the reversed slice `y[3:5]`, which is `[5,4]`, and therefore
returns `[(1+5)/2, (2+4)/2] = [3.0, 3.0]` (not `[2.5, 3.5]`: the
arithmetic of the claim paired the slices without the reversal). -/
theorem c5_amended_scenario :
    centerBounds ([(1 : ℚ), 2, 3, 4, 5] : List ℚ).length none = (2, 5)
      ∧ pySlice [1, 2, 3, 4, 5] 0 2 = [1, 2]
      ∧ (pySlice [1, 2, 3, 4, 5] 3 5).reverse = [5, 4]
      ∧ symmetrizeSignalZero [1, 2, 3, 4, 5] none = Except.ok [(1 + 5) / 2, (2 + 4) / 2] := by
  refine ⟨rfl, rfl, rfl, ?_⟩
  simp [symmetrizeSignalZero, centerBounds, pySlice, broadcastOp]

lemma get?_eq_some_getD (y : List ℚ) (i : ℕ) (h : i < y.length) :
    y.get? i = some (y.getD i 0) := by
  cases hv : y.get? i with
  | none =>
    have hle := List.get?_eq_none.mp hv
    omega
  | some v =>
    have hD : y.getD i 0 = (y.get? i).getD 0 := rfl
    rw [hD, hv]
    rfl

lemma shiftBuild_ok_of_bounds (f : ℚ → ℚ → ℚ) (y : List ℚ) (step : ℕ) :
    ∀ (m i : ℕ), (∀ j, j < m → i + j + step < y.length) → (∀ j, j < m → i + j < y.length) →
      ∃ r, shiftBuild f y step i m = Except.ok r ∧ r.length = m
        ∧ ∀ j, j < m → r.get? j = some (f (y.getD (i + j) 0) (y.getD (i + j + step) 0) / 2) := by
  intro m
  induction m with
  | zero =>
    intro i _ _
    exact ⟨[], rfl, rfl, fun j hj => absurd hj (by omega)⟩
  | succ m ih =>
    intro i hr hl
    have hi : i < y.length := by have := hl 0 (by omega); omega
    have his : i + step < y.length := by have := hr 0 (by omega); omega
    have ha : y.get? i = some (y.getD i 0) := get?_eq_some_getD y i hi
    have hb : y.get? (i + step) = some (y.getD (i + step) 0) := get?_eq_some_getD y (i + step) his
    obtain ⟨r, hrec, hlen, helt⟩ := ih (i + 1)
      (fun j hj => by have := hr (j + 1) (by omega); omega)
      (fun j hj => by have := hl (j + 1) (by omega); omega)
    refine ⟨f (y.getD i 0) (y.getD (i + step) 0) / 2 :: r, ?_, by simp [hlen], ?_⟩
    · simp only [shiftBuild]
      rw [ha, hb, hrec]
    · intro j hj
      cases j with
      | zero => simp
      | succ j2 =>
        have h1 : (f (y.getD i 0) (y.getD (i + step) 0) / 2 :: r).get? (j2 + 1) = r.get? j2 := rfl
        rw [h1, helt j2 (by omega)]
        have e1 : i + 1 + j2 = i + (j2 + 1) := by omega
        rw [e1]

lemma shiftBuild_ok_inv (f : ℚ → ℚ → ℚ) (y : List ℚ) (step : ℕ) :
    ∀ (m i : ℕ) (r : List ℚ), shiftBuild f y step i m = Except.ok r →
      r.length = m ∧ ∀ j, j < m → i + j < y.length ∧ i + j + step < y.length := by
  intro m
  induction m with
  | zero =>
    intro i r h
    simp only [shiftBuild] at h
    injection h with h2
    exact ⟨h2 ▸ rfl, fun j hj => absurd hj (by omega)⟩
  | succ m ih =>
    intro i r h
    simp only [shiftBuild] at h
    cases ha : y.get? i with
    | none => rw [ha] at h; exact absurd h (by simp)
    | some a =>
      cases hb : y.get? (i + step) with
      | none => rw [ha, hb] at h; exact absurd h (by simp)
      | some b =>
        rw [ha, hb] at h
        cases hrec : shiftBuild f y step (i + 1) m with
        | error e => rw [hrec] at h; exact absurd h (by simp)
        | ok rest =>
          rw [hrec] at h
          injection h with h2
          obtain ⟨hlen, hbnd⟩ := ih (i + 1) rest hrec
          have hi : i < y.length := by
            by_contra hcon
            rw [List.get?_eq_none.mpr (by omega)] at ha
            exact Option.noConfusion ha
          have his : i + step < y.length := by
            by_contra hcon
            rw [List.get?_eq_none.mpr (by omega)] at hb
            exact Option.noConfusion hb
          refine ⟨h2 ▸ by simp [hlen], ?_⟩
          intro j hj
          cases j with
          | zero => exact ⟨by omega, by omega⟩
          | succ j2 =>
            have := hbnd j2 (by omega)
            exact ⟨by omega, by omega⟩

lemma shiftBuild_err_msg (f : ℚ → ℚ → ℚ) (y : List ℚ) (step : ℕ) :
    ∀ (m i : ℕ) (e : String), shiftBuild f y step i m = Except.error e → e = indexMsg := by
  intro m
  induction m with
  | zero => intro i e h; exact absurd h (by simp [shiftBuild])
  | succ m ih =>
    intro i e h
    simp only [shiftBuild] at h
    cases ha : y.get? i with
    | none => rw [ha] at h; injection h with h2; exact h2.symm
    | some a =>
      cases hb : y.get? (i + step) with
      | none => rw [ha, hb] at h; injection h with h2; exact h2.symm
      | some b =>
        rw [ha, hb] at h
        cases hrec : shiftBuild f y step (i + 1) m with
        | error e2 =>
          rw [hrec] at h
          injection h with h2
          exact h2 ▸ ih (i + 1) e2 hrec
        | ok rest => rw [hrec] at h; exact absurd h (by simp)

lemma shiftBuild_ok_of_forall (f : ℚ → ℚ → ℚ) (y : List ℚ) (step m i : ℕ)
    (hl : ∀ j, j < m → i + j < y.length) (hr : ∀ j, j < m → i + j + step < y.length) :
    ∃ r, shiftBuild f y step i m = Except.ok r :=
  (shiftBuild_ok_of_bounds f y step m i hr hl).imp (fun _ hx => hx.1)

lemma symmetrizeSignal_eq_build (y : List ℚ) (step : ℕ) (he : y.length % 2 = 0) :
    symmetrizeSignal y step = shiftBuild (fun u v => u + v) y step 0 (y.length / 2) := by
  unfold symmetrizeSignal
  rw [if_neg (by omega)]

lemma antiSymmetrizeSignal_eq_build (y : List ℚ) (step : ℕ) (he : y.length % 2 = 0) :
    antiSymmetrizeSignal y step = shiftBuild (fun u v => u - v) y step 0 (y.length / 2) := by
  unfold antiSymmetrizeSignal
  rw [if_neg (by omega)]

/-- C6: for every even-length signal and every positive in-range step,
`symmetrizeSignal` returns the sequence of the `(y[n] + y[n+step])/2`
for `n` below `N/2` and `antiSymmetrizeSignal` the sequence of the
`(y[n] - y[n+step])/2`; in particular on `y = [0,2,4,6]` with
`step = 2` they return `[2, 4]` and `[-2, -2]`. -/
theorem c6_shift_formula (y : List ℚ) (step : ℕ) (heven : y.length % 2 = 0)
    (hpos : 0 < step) (hlt : step < y.length)
    (hrange : ∀ n, n < y.length / 2 → n + step < y.length) :
    (∃ s, symmetrizeSignal y step = Except.ok s ∧ s.length = y.length / 2
        ∧ ∀ n, n < y.length / 2 → s.get? n = some ((y.getD n 0 + y.getD (n + step) 0) / 2))
      ∧ (∃ t, antiSymmetrizeSignal y step = Except.ok t ∧ t.length = y.length / 2
        ∧ ∀ n, n < y.length / 2 → t.get? n = some ((y.getD n 0 - y.getD (n + step) 0) / 2))
      ∧ symmetrizeSignal [0, 2, 4, 6] 2 = Except.ok [2, 4]
      ∧ antiSymmetrizeSignal [0, 2, 4, 6] 2 = Except.ok [-2, -2] := by
  have hl : ∀ j, j < y.length / 2 → 0 + j < y.length := fun j hj => by omega
  have hr : ∀ j, j < y.length / 2 → 0 + j + step < y.length := fun j hj => by
    have := hrange j hj; omega
  refine ⟨?_, ?_, ?_, ?_⟩
  · obtain ⟨r, hok, hlen, helt⟩ :=
      shiftBuild_ok_of_bounds (fun u v => u + v) y step (y.length / 2) 0 hr hl
    refine ⟨r, by rw [symmetrizeSignal_eq_build y step heven]; exact hok, hlen, ?_⟩
    intro n hn
    have := helt n hn
    simpa using this
  · obtain ⟨r, hok, hlen, helt⟩ :=
      shiftBuild_ok_of_bounds (fun u v => u - v) y step (y.length / 2) 0 hr hl
    refine ⟨r, by rw [antiSymmetrizeSignal_eq_build y step heven]; exact hok, hlen, ?_⟩
    intro n hn
    have := helt n hn
    simpa using this
  · simp [symmetrizeSignal, shiftBuild]
    norm_num
  · simp [antiSymmetrizeSignal, shiftBuild]
    norm_num

/-- Witness for C6 at `y = [0,2,4,6]`, `step = 2`. -/
theorem c6_shift_formula_witness :
    (([(0 : ℚ), 2, 4, 6] : List ℚ).length % 2 = 0)
      ∧ 0 < 2
      ∧ 2 < ([(0 : ℚ), 2, 4, 6] : List ℚ).length
      ∧ (∀ n, n < ([(0 : ℚ), 2, 4, 6] : List ℚ).length / 2 →
          n + 2 < ([(0 : ℚ), 2, 4, 6] : List ℚ).length)
      ∧ ((∃ s, symmetrizeSignal [0, 2, 4, 6] 2 = Except.ok s
            ∧ s.length = ([(0 : ℚ), 2, 4, 6] : List ℚ).length / 2
            ∧ ∀ n, n < ([(0 : ℚ), 2, 4, 6] : List ℚ).length / 2 →
                s.get? n = some ((([(0 : ℚ), 2, 4, 6] : List ℚ).getD n 0
                    + ([(0 : ℚ), 2, 4, 6] : List ℚ).getD (n + 2) 0) / 2))
          ∧ (∃ t, antiSymmetrizeSignal [0, 2, 4, 6] 2 = Except.ok t
            ∧ t.length = ([(0 : ℚ), 2, 4, 6] : List ℚ).length / 2
            ∧ ∀ n, n < ([(0 : ℚ), 2, 4, 6] : List ℚ).length / 2 →
                t.get? n = some ((([(0 : ℚ), 2, 4, 6] : List ℚ).getD n 0
                    - ([(0 : ℚ), 2, 4, 6] : List ℚ).getD (n + 2) 0) / 2))
          ∧ symmetrizeSignal [0, 2, 4, 6] 2 = Except.ok [2, 4]
          ∧ antiSymmetrizeSignal [0, 2, 4, 6] 2 = Except.ok [-2, -2]) :=
  ⟨by decide, by decide, by decide,
    fun n hn => by simp at hn ⊢; omega,
    c6_shift_formula [0, 2, 4, 6] 2 (by decide) (by decide) (by decide)
      (fun n hn => by simp at hn ⊢; omega)⟩

lemma symmetrizeSignal_ok_length (y : List ℚ) (step : ℕ) (s : List ℚ)
    (h : symmetrizeSignal y step = Except.ok s) : s.length = y.length / 2 := by
  by_cases he : y.length % 2 = 1
  · unfold symmetrizeSignal at h
    rw [if_pos he] at h
    exact absurd h (by simp)
  · rw [symmetrizeSignal_eq_build y step (by omega)] at h
    exact (shiftBuild_ok_inv _ y step _ 0 s h).1

lemma antiSymmetrizeSignal_ok_length (y : List ℚ) (step : ℕ) (s : List ℚ)
    (h : antiSymmetrizeSignal y step = Except.ok s) : s.length = y.length / 2 := by
  by_cases he : y.length % 2 = 1
  · unfold antiSymmetrizeSignal at h
    rw [if_pos he] at h
    exact absurd h (by simp)
  · rw [antiSymmetrizeSignal_eq_build y step (by omega)] at h
    exact (shiftBuild_ok_inv _ y step _ 0 s h).1

lemma symmetrizeSignal_isOk_iff (y : List ℚ) (step : ℕ) (he : y.length % 2 = 0) :
    (∃ s, symmetrizeSignal y step = Except.ok s)
      ↔ ∀ j, j < y.length / 2 → j + step < y.length := by
  constructor
  · rintro ⟨s, hs⟩ j hj
    rw [symmetrizeSignal_eq_build y step he] at hs
    have := (shiftBuild_ok_inv _ y step _ 0 s hs).2 j hj
    omega
  · intro hall
    obtain ⟨r, hr⟩ := shiftBuild_ok_of_forall _ y step (y.length / 2) 0
      (fun j hj => by omega) (fun j hj => by have := hall j hj; omega)
    exact ⟨r, by rw [symmetrizeSignal_eq_build y step he]; exact hr⟩

lemma antiSymmetrizeSignal_isOk_iff (y : List ℚ) (step : ℕ) (he : y.length % 2 = 0) :
    (∃ s, antiSymmetrizeSignal y step = Except.ok s)
      ↔ ∀ j, j < y.length / 2 → j + step < y.length := by
  constructor
  · rintro ⟨s, hs⟩ j hj
    rw [antiSymmetrizeSignal_eq_build y step he] at hs
    have := (shiftBuild_ok_inv _ y step _ 0 s hs).2 j hj
    omega
  · intro hall
    obtain ⟨r, hr⟩ := shiftBuild_ok_of_forall _ y step (y.length / 2) 0
      (fun j hj => by omega) (fun j hj => by have := hall j hj; omega)
    exact ⟨r, by rw [antiSymmetrizeSignal_eq_build y step he]; exact hr⟩

lemma symmetrizeSignal_err_msg (y : List ℚ) (step : ℕ) (e : String) (he : y.length % 2 = 0)
    (h : symmetrizeSignal y step = Except.error e) : e = indexMsg := by
  rw [symmetrizeSignal_eq_build y step he] at h
  exact shiftBuild_err_msg _ y step _ 0 e h

lemma antiSymmetrizeSignal_err_msg (y : List ℚ) (step : ℕ) (e : String) (he : y.length % 2 = 0)
    (h : antiSymmetrizeSignal y step = Except.error e) : e = indexMsg := by
  rw [antiSymmetrizeSignal_eq_build y step he] at h
  exact shiftBuild_err_msg _ y step _ 0 e h

lemma upDown_yL_length (y : List ℚ) (h4 : y.length % 4 = 0) :
    (pySlice y 0 (y.length / 4) ++ pySlice y (2 * y.length / 4) (3 * y.length / 4)).length
      = y.length / 2 := by
  simp [pySlice]
  omega

lemma upDown_yU_length (y : List ℚ) (h4 : y.length % 4 = 0) :
    (pySlice y (y.length / 4) (2 * y.length / 4) ++ y.drop (3 * y.length / 4)).length
      = y.length / 2 := by
  simp [pySlice]
  omega

/-- C7: for every signal whose length `N` is divisible by 4, the
up/down symmetrizers reassemble `lower = concat(Q1, Q3)` and
`upper = concat(Q2, Q4)` from the four quadrants of length `N/4`,
apply the shift symmetrizer with the same step to each and concatenate
the results, any successful result having final length `N/2`; in
particular `symmetrizeSignalUpDown(range(8), 2) = [2, 3, 4, 5]`. -/
theorem c7_updown_quadrants (y : List ℚ) (step : ℕ) (h4 : y.length % 4 = 0) :
    (pySlice y 0 (y.length / 4)).length = y.length / 4
      ∧ (pySlice y (y.length / 4) (2 * (y.length / 4))).length = y.length / 4
      ∧ (pySlice y (2 * (y.length / 4)) (3 * (y.length / 4))).length = y.length / 4
      ∧ (pySlice y (3 * (y.length / 4)) (4 * (y.length / 4))).length = y.length / 4
      ∧ (∀ a b,
          symmetrizeSignal (pySlice y 0 (y.length / 4)
            ++ pySlice y (2 * (y.length / 4)) (3 * (y.length / 4))) step = Except.ok a →
          symmetrizeSignal (pySlice y (y.length / 4) (2 * (y.length / 4))
            ++ pySlice y (3 * (y.length / 4)) (4 * (y.length / 4))) step = Except.ok b →
          symmetrizeSignalUpDown y step = Except.ok (a ++ b))
      ∧ (∀ a b,
          antiSymmetrizeSignal (pySlice y 0 (y.length / 4)
            ++ pySlice y (2 * (y.length / 4)) (3 * (y.length / 4))) step = Except.ok a →
          antiSymmetrizeSignal (pySlice y (y.length / 4) (2 * (y.length / 4))
            ++ pySlice y (3 * (y.length / 4)) (4 * (y.length / 4))) step = Except.ok b →
          antiSymmetrizeSignalUpDown y step = Except.ok (a ++ b))
      ∧ (∀ r, symmetrizeSignalUpDown y step = Except.ok r → r.length = y.length / 2)
      ∧ (∀ r, antiSymmetrizeSignalUpDown y step = Except.ok r → r.length = y.length / 2)
      ∧ symmetrizeSignalUpDown [0, 1, 2, 3, 4, 5, 6, 7] 2 = Except.ok [2, 3, 4, 5] := by
  have e2 : 2 * y.length / 4 = 2 * (y.length / 4) := by omega
  have e3 : 3 * y.length / 4 = 3 * (y.length / 4) := by omega
  have e4 : 4 * (y.length / 4) = y.length := by omega
  have hQ4 : y.drop (3 * y.length / 4) = pySlice y (3 * (y.length / 4)) (4 * (y.length / 4)) := by
    rw [e4]
    simp [pySlice, List.take_length, e3]
  refine ⟨?_, ?_, ?_, ?_, ?_, ?_, ?_, ?_, ?_⟩
  · simp [pySlice]; omega
  · simp [pySlice]; omega
  · simp [pySlice]; omega
  · simp [pySlice]; omega
  · intro a b ha hb
    simp only [symmetrizeSignalUpDown]
    rw [hQ4, e2, e3, ha, hb]
  · intro a b ha hb
    simp only [antiSymmetrizeSignalUpDown]
    rw [hQ4, e2, e3, ha, hb]
  · intro r h
    simp only [symmetrizeSignalUpDown] at h
    cases hL : symmetrizeSignal
        (pySlice y 0 (y.length / 4) ++ pySlice y (2 * y.length / 4) (3 * y.length / 4)) step with
    | error eL => rw [hL] at h; exact absurd h (by simp)
    | ok a =>
      rw [hL] at h
      cases hU : symmetrizeSignal
          (pySlice y (y.length / 4) (2 * y.length / 4) ++ y.drop (3 * y.length / 4)) step with
      | error eU => rw [hU] at h; exact absurd h (by simp)
      | ok b =>
        rw [hU] at h
        injection h with h2
        have la := symmetrizeSignal_ok_length _ step a hL
        have lb := symmetrizeSignal_ok_length _ step b hU
        rw [upDown_yL_length y h4] at la
        rw [upDown_yU_length y h4] at lb
        rw [← h2, List.length_append, la, lb]
        omega
  · intro r h
    simp only [antiSymmetrizeSignalUpDown] at h
    cases hL : antiSymmetrizeSignal
        (pySlice y 0 (y.length / 4) ++ pySlice y (2 * y.length / 4) (3 * y.length / 4)) step with
    | error eL => rw [hL] at h; exact absurd h (by simp)
    | ok a =>
      rw [hL] at h
      cases hU : antiSymmetrizeSignal
          (pySlice y (y.length / 4) (2 * y.length / 4) ++ y.drop (3 * y.length / 4)) step with
      | error eU => rw [hU] at h; exact absurd h (by simp)
      | ok b =>
        rw [hU] at h
        injection h with h2
        have la := antiSymmetrizeSignal_ok_length _ step a hL
        have lb := antiSymmetrizeSignal_ok_length _ step b hU
        rw [upDown_yL_length y h4] at la
        rw [upDown_yU_length y h4] at lb
        rw [← h2, List.length_append, la, lb]
        omega
  · simp [symmetrizeSignalUpDown, symmetrizeSignal, shiftBuild, pySlice]
    norm_num

/-- Witness for C7 at `y = range(8)`, `step = 2`. -/
theorem c7_updown_quadrants_witness :
    (([(0 : ℚ), 1, 2, 3, 4, 5, 6, 7] : List ℚ).length % 4 = 0)
      ∧ ((pySlice [0, 1, 2, 3, 4, 5, 6, 7] 0
            (([(0 : ℚ), 1, 2, 3, 4, 5, 6, 7] : List ℚ).length / 4)).length
          = ([(0 : ℚ), 1, 2, 3, 4, 5, 6, 7] : List ℚ).length / 4
        ∧ (pySlice [0, 1, 2, 3, 4, 5, 6, 7]
            (([(0 : ℚ), 1, 2, 3, 4, 5, 6, 7] : List ℚ).length / 4)
            (2 * (([(0 : ℚ), 1, 2, 3, 4, 5, 6, 7] : List ℚ).length / 4))).length
          = ([(0 : ℚ), 1, 2, 3, 4, 5, 6, 7] : List ℚ).length / 4
        ∧ (pySlice [0, 1, 2, 3, 4, 5, 6, 7]
            (2 * (([(0 : ℚ), 1, 2, 3, 4, 5, 6, 7] : List ℚ).length / 4))
            (3 * (([(0 : ℚ), 1, 2, 3, 4, 5, 6, 7] : List ℚ).length / 4))).length
          = ([(0 : ℚ), 1, 2, 3, 4, 5, 6, 7] : List ℚ).length / 4
        ∧ (pySlice [0, 1, 2, 3, 4, 5, 6, 7]
            (3 * (([(0 : ℚ), 1, 2, 3, 4, 5, 6, 7] : List ℚ).length / 4))
            (4 * (([(0 : ℚ), 1, 2, 3, 4, 5, 6, 7] : List ℚ).length / 4))).length
          = ([(0 : ℚ), 1, 2, 3, 4, 5, 6, 7] : List ℚ).length / 4
        ∧ (∀ a b,
            symmetrizeSignal (pySlice [0, 1, 2, 3, 4, 5, 6, 7] 0
                (([(0 : ℚ), 1, 2, 3, 4, 5, 6, 7] : List ℚ).length / 4)
              ++ pySlice [0, 1, 2, 3, 4, 5, 6, 7]
                (2 * (([(0 : ℚ), 1, 2, 3, 4, 5, 6, 7] : List ℚ).length / 4))
                (3 * (([(0 : ℚ), 1, 2, 3, 4, 5, 6, 7] : List ℚ).length / 4))) 2 = Except.ok a →
            symmetrizeSignal (pySlice [0, 1, 2, 3, 4, 5, 6, 7]
                (([(0 : ℚ), 1, 2, 3, 4, 5, 6, 7] : List ℚ).length / 4)
                (2 * (([(0 : ℚ), 1, 2, 3, 4, 5, 6, 7] : List ℚ).length / 4))
              ++ pySlice [0, 1, 2, 3, 4, 5, 6, 7]
                (3 * (([(0 : ℚ), 1, 2, 3, 4, 5, 6, 7] : List ℚ).length / 4))
                (4 * (([(0 : ℚ), 1, 2, 3, 4, 5, 6, 7] : List ℚ).length / 4))) 2 = Except.ok b →
            symmetrizeSignalUpDown [0, 1, 2, 3, 4, 5, 6, 7] 2 = Except.ok (a ++ b))
        ∧ (∀ a b,
            antiSymmetrizeSignal (pySlice [0, 1, 2, 3, 4, 5, 6, 7] 0
                (([(0 : ℚ), 1, 2, 3, 4, 5, 6, 7] : List ℚ).length / 4)
              ++ pySlice [0, 1, 2, 3, 4, 5, 6, 7]
                (2 * (([(0 : ℚ), 1, 2, 3, 4, 5, 6, 7] : List ℚ).length / 4))
                (3 * (([(0 : ℚ), 1, 2, 3, 4, 5, 6, 7] : List ℚ).length / 4))) 2 = Except.ok a →
            antiSymmetrizeSignal (pySlice [0, 1, 2, 3, 4, 5, 6, 7]
                (([(0 : ℚ), 1, 2, 3, 4, 5, 6, 7] : List ℚ).length / 4)
                (2 * (([(0 : ℚ), 1, 2, 3, 4, 5, 6, 7] : List ℚ).length / 4))
              ++ pySlice [0, 1, 2, 3, 4, 5, 6, 7]
                (3 * (([(0 : ℚ), 1, 2, 3, 4, 5, 6, 7] : List ℚ).length / 4))
                (4 * (([(0 : ℚ), 1, 2, 3, 4, 5, 6, 7] : List ℚ).length / 4))) 2 = Except.ok b →
            antiSymmetrizeSignalUpDown [0, 1, 2, 3, 4, 5, 6, 7] 2 = Except.ok (a ++ b))
        ∧ (∀ r, symmetrizeSignalUpDown [0, 1, 2, 3, 4, 5, 6, 7] 2 = Except.ok r →
            r.length = ([(0 : ℚ), 1, 2, 3, 4, 5, 6, 7] : List ℚ).length / 2)
        ∧ (∀ r, antiSymmetrizeSignalUpDown [0, 1, 2, 3, 4, 5, 6, 7] 2 = Except.ok r →
            r.length = ([(0 : ℚ), 1, 2, 3, 4, 5, 6, 7] : List ℚ).length / 2)
        ∧ symmetrizeSignalUpDown [0, 1, 2, 3, 4, 5, 6, 7] 2 = Except.ok [2, 3, 4, 5]) :=
  ⟨by decide, c7_updown_quadrants [0, 1, 2, 3, 4, 5, 6, 7] 2 (by decide)⟩

/-- C8 counterexample: for `y = [0,1,2,3]` (length 4, so `N/4 = 1` is
odd and `N` is not divisible by 8) and `step = 1`, both up/down
symmetrizers SUCCEED, contradicting the claim that they raise an
`InvalidShapeError` exactly when `N/4` is odd: the reassembled halves
have length `N/2 = 2`, which is even whenever `N` is divisible by 4,
so the parity check of the underlying shift symmetrizers can never
fire. -/
theorem c8_counterexample :
    symmetrizeSignalUpDown [0, 1, 2, 3] 1 = Except.ok [1, 2]
      ∧ antiSymmetrizeSignalUpDown [0, 1, 2, 3] 1 = Except.ok [-1, -1] := by
  constructor <;>
    · simp [symmetrizeSignalUpDown, antiSymmetrizeSignalUpDown, symmetrizeSignal,
        antiSymmetrizeSignal, shiftBuild, pySlice]
      norm_num

/-- C8 amended: for every signal whose length `N` is divisible by 4
and every positive step, the up/down symmetrizers never raise the
parity `InvalidShapeError` (the reassembled halves have even length
`N/2`); the call succeeds exactly when `N = 0` or `step <= N/4`, and
any failure is the IndexError of the underlying fill loop reading past
the half, not a shape error.  Divisibility of `N` by 8 is irrelevant. -/
theorem c8_updown_success_condition (y : List ℚ) (step : ℕ) (h4 : y.length % 4 = 0)
    (hpos : 0 < step) :
    ((∃ r, symmetrizeSignalUpDown y step = Except.ok r)
        ↔ (y.length = 0 ∨ step ≤ y.length / 4))
      ∧ ((∃ r, antiSymmetrizeSignalUpDown y step = Except.ok r)
        ↔ (y.length = 0 ∨ step ≤ y.length / 4))
      ∧ (∀ e, symmetrizeSignalUpDown y step = Except.error e → e = indexMsg)
      ∧ (∀ e, antiSymmetrizeSignalUpDown y step = Except.error e → e = indexMsg) := by
  have hLlen : (pySlice y 0 (y.length / 4)
      ++ pySlice y (2 * y.length / 4) (3 * y.length / 4)).length = y.length / 2 :=
    upDown_yL_length y h4
  have hUlen : (pySlice y (y.length / 4) (2 * y.length / 4)
      ++ y.drop (3 * y.length / 4)).length = y.length / 2 :=
    upDown_yU_length y h4
  have hLeven : (pySlice y 0 (y.length / 4)
      ++ pySlice y (2 * y.length / 4) (3 * y.length / 4)).length % 2 = 0 := by
    rw [hLlen]; omega
  have hUeven : (pySlice y (y.length / 4) (2 * y.length / 4)
      ++ y.drop (3 * y.length / 4)).length % 2 = 0 := by
    rw [hUlen]; omega
  have hcond : ∀ z : List ℚ, z.length = y.length / 2 →
      ((∀ j, j < z.length / 2 → j + step < z.length) ↔ (y.length = 0 ∨ step ≤ y.length / 4)) := by
    intro z hz
    rw [hz]
    constructor
    · intro hall
      by_cases h0 : y.length = 0
      · exact Or.inl h0
      · refine Or.inr ?_
        have hq : 0 < y.length / 4 := by omega
        have := hall (y.length / 2 / 2 - 1) (by omega)
        omega
    · intro hor j hj
      rcases hor with h0 | hle
      · omega
      · omega
  refine ⟨?_, ?_, ?_, ?_⟩
  · constructor
    · rintro ⟨r, hr⟩
      simp only [symmetrizeSignalUpDown] at hr
      cases hL : symmetrizeSignal
          (pySlice y 0 (y.length / 4) ++ pySlice y (2 * y.length / 4) (3 * y.length / 4)) step with
      | error eL => rw [hL] at hr; exact absurd hr (by simp)
      | ok a =>
        have := (symmetrizeSignal_isOk_iff _ step hLeven).mp ⟨a, hL⟩
        exact (hcond _ hLlen).mp this
    · intro hor
      obtain ⟨a, ha⟩ := (symmetrizeSignal_isOk_iff _ step hLeven).mpr
        ((hcond _ hLlen).mpr hor)
      obtain ⟨b, hb⟩ := (symmetrizeSignal_isOk_iff _ step hUeven).mpr
        ((hcond _ hUlen).mpr hor)
      refine ⟨a ++ b, ?_⟩
      simp only [symmetrizeSignalUpDown]
      rw [ha, hb]
  · constructor
    · rintro ⟨r, hr⟩
      simp only [antiSymmetrizeSignalUpDown] at hr
      cases hL : antiSymmetrizeSignal
          (pySlice y 0 (y.length / 4) ++ pySlice y (2 * y.length / 4) (3 * y.length / 4)) step with
      | error eL => rw [hL] at hr; exact absurd hr (by simp)
      | ok a =>
        have := (antiSymmetrizeSignal_isOk_iff _ step hLeven).mp ⟨a, hL⟩
        exact (hcond _ hLlen).mp this
    · intro hor
      obtain ⟨a, ha⟩ := (antiSymmetrizeSignal_isOk_iff _ step hLeven).mpr
        ((hcond _ hLlen).mpr hor)
      obtain ⟨b, hb⟩ := (antiSymmetrizeSignal_isOk_iff _ step hUeven).mpr
        ((hcond _ hUlen).mpr hor)
      refine ⟨a ++ b, ?_⟩
      simp only [antiSymmetrizeSignalUpDown]
      rw [ha, hb]
  · intro e he
    simp only [symmetrizeSignalUpDown] at he
    cases hL : symmetrizeSignal
        (pySlice y 0 (y.length / 4) ++ pySlice y (2 * y.length / 4) (3 * y.length / 4)) step with
    | error eL =>
      rw [hL] at he
      injection he with h2
      exact h2 ▸ symmetrizeSignal_err_msg _ step eL hLeven hL
    | ok a =>
      rw [hL] at he
      cases hU : symmetrizeSignal
          (pySlice y (y.length / 4) (2 * y.length / 4) ++ y.drop (3 * y.length / 4)) step with
      | error eU =>
        rw [hU] at he
        injection he with h2
        exact h2 ▸ symmetrizeSignal_err_msg _ step eU hUeven hU
      | ok b => rw [hU] at he; exact absurd he (by simp)
  · intro e he
    simp only [antiSymmetrizeSignalUpDown] at he
    cases hL : antiSymmetrizeSignal
        (pySlice y 0 (y.length / 4) ++ pySlice y (2 * y.length / 4) (3 * y.length / 4)) step with
    | error eL =>
      rw [hL] at he
      injection he with h2
      exact h2 ▸ antiSymmetrizeSignal_err_msg _ step eL hLeven hL
    | ok a =>
      rw [hL] at he
      cases hU : antiSymmetrizeSignal
          (pySlice y (y.length / 4) (2 * y.length / 4) ++ y.drop (3 * y.length / 4)) step with
      | error eU =>
        rw [hU] at he
        injection he with h2
        exact h2 ▸ antiSymmetrizeSignal_err_msg _ step eU hUeven hU
      | ok b => rw [hU] at he; exact absurd he (by simp)

/-- Witness for C8 at `y = [0,1,2,3]`, `step = 1`: length 4 is
divisible by 4 but not by 8, yet the success condition `step <= N/4`
holds and the calls succeed. -/
theorem c8_updown_success_condition_witness :
    (([(0 : ℚ), 1, 2, 3] : List ℚ).length % 4 = 0)
      ∧ 0 < 1
      ∧ (((∃ r, symmetrizeSignalUpDown [0, 1, 2, 3] 1 = Except.ok r)
            ↔ (([(0 : ℚ), 1, 2, 3] : List ℚ).length = 0
                ∨ 1 ≤ ([(0 : ℚ), 1, 2, 3] : List ℚ).length / 4))
          ∧ ((∃ r, antiSymmetrizeSignalUpDown [0, 1, 2, 3] 1 = Except.ok r)
            ↔ (([(0 : ℚ), 1, 2, 3] : List ℚ).length = 0
                ∨ 1 ≤ ([(0 : ℚ), 1, 2, 3] : List ℚ).length / 4))
          ∧ (∀ e, symmetrizeSignalUpDown [0, 1, 2, 3] 1 = Except.error e → e = indexMsg)
          ∧ (∀ e, antiSymmetrizeSignalUpDown [0, 1, 2, 3] 1 = Except.error e → e = indexMsg)) :=
  ⟨by decide, by decide, c8_updown_success_condition [0, 1, 2, 3] 1 (by decide) (by decide)⟩

lemma strideTwo_cons (b : ℚ) (rest : List ℚ) :
    strideTwo (b :: rest) = b :: strideTwo (rest.drop 1) := by
  cases rest with
  | nil => rfl
  | cons c rest2 => rfl

lemma interleave_strideTwo : ∀ x : List ℚ,
    interleave (strideTwo x) (strideTwo (x.drop 1)) = x := by
  intro x
  induction x using strideTwo.induct with
  | case1 => simp [strideTwo, interleave]
  | case2 a => simp [strideTwo, interleave]
  | case3 a b rest ih =>
    simp only [strideTwo, List.drop_one, List.tail_cons]
    rw [strideTwo_cons]
    simp only [interleave]
    rw [ih]

lemma strideTwo_get? : ∀ (x : List ℚ) (n : ℕ), (strideTwo x).get? n = x.get? (2 * n) := by
  intro x
  induction x using strideTwo.induct with
  | case1 => intro n; rfl
  | case2 a =>
    intro n
    cases n with
    | zero => rfl
    | succ m =>
      rw [List.get?_eq_none.mpr
        (show ([a] : List ℚ).length ≤ 2 * (m + 1) by
          simp only [List.length_cons, List.length_nil]; omega)]
      rfl
  | case3 a b rest ih =>
    intro n
    cases n with
    | zero => rfl
    | succ m =>
      have h1 : (strideTwo (a :: b :: rest)).get? (m + 1) = (strideTwo rest).get? m := rfl
      have h2 : 2 * (m + 1) = 2 * m + 1 + 1 := by ring
      rw [h1, ih m, h2]
      rfl

/-- C9: `separateAlternatingSignal` is invertible for every input
length: re-interleaving the two returned sub-sequences by alternation
reproduces the input exactly, and those sub-sequences are precisely
the elements at even and at odd positions. -/
theorem c9_separate_alternating_invertible (x : List ℚ) :
    interleave (separateAlternatingSignal x).1 (separateAlternatingSignal x).2 = x
      ∧ (∀ n, (separateAlternatingSignal x).1.get? n = x.get? (2 * n))
      ∧ (∀ n, (separateAlternatingSignal x).2.get? n = x.get? (2 * n + 1)) := by
  refine ⟨interleave_strideTwo x, fun n => strideTwo_get? x n, fun n => ?_⟩
  show (strideTwo (x.drop 1)).get? n = x.get? (2 * n + 1)
  rw [strideTwo_get? (x.drop 1) n, List.get?_drop]
  congr 1
  omega

/-- C10: the implicit-pivot center symmetrizers do not depend on the
pivot sample itself: two odd-length inputs of the same length that
agree at every index other than `len(y)/2` produce identical outputs,
because the center sample is excluded from both pairing slices. -/
theorem c10_pivot_sample_independence (y z : List ℚ) (hodd : y.length % 2 = 1)
    (hlen : z.length = y.length)
    (hagree : ∀ i, i ≠ y.length / 2 → y.get? i = z.get? i) :
    symmetrizeSignalZero y none = symmetrizeSignalZero z none
      ∧ antiSymmetrizeSignalZero y none = antiSymmetrizeSignalZero z none := by
  obtain ⟨k, hk⟩ : ∃ k, y.length = 2 * k + 1 := ⟨y.length / 2, by omega⟩
  have hzlen : z.length = 2 * k + 1 := by omega
  have hk2 : y.length / 2 = k := by omega
  have htake : y.take k = z.take k := by
    apply List.ext_get?
    intro n
    by_cases hn : n < k
    · rw [List.get?_take hn, List.get?_take hn]
      exact hagree n (by omega)
    · rw [List.get?_eq_none.mpr (by simp [List.length_take]; omega),
        List.get?_eq_none.mpr (by simp [List.length_take]; omega)]
  have hdrop : y.drop (k + 1) = z.drop (k + 1) := by
    apply List.ext_get?
    intro n
    rw [List.get?_drop, List.get?_drop]
    exact hagree (k + 1 + n) (by omega)
  rw [symZero_none_eq y k hk, symZero_none_eq z k hzlen,
    antiSymZero_none_eq y k hk, antiSymZero_none_eq z k hzlen, htake, hdrop]
  exact ⟨rfl, rfl⟩

/-- Witness for C10 at `y = [1,2,3]`, `z = [1,7,3]`: the inputs differ
only at the pivot index 1 and the outputs coincide. -/
theorem c10_pivot_sample_independence_witness :
    (([(1 : ℚ), 2, 3] : List ℚ).length % 2 = 1)
      ∧ (([(1 : ℚ), 7, 3] : List ℚ).length = ([(1 : ℚ), 2, 3] : List ℚ).length)
      ∧ (∀ i, i ≠ ([(1 : ℚ), 2, 3] : List ℚ).length / 2 →
          ([(1 : ℚ), 2, 3] : List ℚ).get? i = ([(1 : ℚ), 7, 3] : List ℚ).get? i)
      ∧ (symmetrizeSignalZero [1, 2, 3] none = symmetrizeSignalZero [1, 7, 3] none
          ∧ antiSymmetrizeSignalZero [1, 2, 3] none = antiSymmetrizeSignalZero [1, 7, 3] none) :=
  ⟨by decide, by decide,
    fun i hi => match i, hi with
      | 0, _ => rfl
      | 1, hi => absurd rfl hi
      | 2, _ => rfl
      | _ + 3, _ => rfl,
    c10_pivot_sample_independence [1, 2, 3] [1, 7, 3] (by decide) (by decide)
      (fun i hi => match i, hi with
        | 0, _ => rfl
        | 1, hi => absurd rfl hi
        | 2, _ => rfl
        | _ + 3, _ => rfl)⟩

end TransportData
